import Mathlib

/-!
Formal model of the netbird-coredns service core, shallowly embedded from the
Go sources: the record store (`internal/api/storage.go`, `pkg/dns` record
validation), the HTTP record handlers (`internal/api/handlers.go`), the
CoreDNS resolution plugin (`internal/plugin`), and the process supervisor
(`internal/process/manager.go`).  Go maps are modelled as association lists,
strings as Lean `String` with character-list based primitives mirroring the
`strings` package functions actually used, and effectful steps (file IO,
process events) as explicit state passing with an event parameter naming the
environmental outcome.
-/

namespace NBCD

/-- Association-list lookup, modelling Go map indexing `m[k]` (comma-ok form). -/
def lookupA {α : Type} (k : String) : List (String × α) → Option α
  | [] => none
  | (k', v) :: rest => if k' = k then some v else lookupA k rest

/-- Association-list insert-or-replace, modelling Go map assignment `m[k] = v`. -/
def insertA {α : Type} (k : String) (v : α) : List (String × α) → List (String × α)
  | [] => [(k, v)]
  | (k', v') :: rest => if k' = k then (k, v) :: rest else (k', v') :: insertA k v rest

/-- Association-list removal, modelling Go `delete(m, k)`. -/
def eraseA {α : Type} (k : String) : List (String × α) → List (String × α)
  | [] => []
  | (k', v') :: rest => if k' = k then rest else (k', v') :: eraseA k rest

/-- Model of Go `strings.HasSuffix s p` (byte-wise; modelled on characters). -/
def strEndsWith (s p : String) : Bool := p.data.isSuffixOf s.data

/-- Model of Go `strings.HasPrefix s p`. -/
def strStartsWith (s p : String) : Bool := p.data.isPrefixOf s.data

/-- Model of Go `strings.TrimSuffix s p`: drop a trailing `p` if present. -/
def trimSuffix (s p : String) : String :=
  if p.data.isSuffixOf s.data then String.mk (s.data.take (s.data.length - p.data.length)) else s

/-- Model of Go `strings.TrimPrefix s p` (used on URL paths): drop a leading `p` if present. -/
def trimLeading (s p : String) : String :=
  if p.data.isPrefixOf s.data then String.mk (s.data.drop p.data.length) else s

/-- Model of Go `strings.Split s c` for a one-character separator. -/
def splitOnChar (c : Char) (s : String) : List String :=
  (s.data.splitOn c).map String.mk

/-- Model of Go `strings.Join parts "."` restricted to how the plugin uses it. -/
def joinDots (parts : List String) : String := String.intercalate "." parts

/-- DNS record, from `pkg/dns` (`Record` struct): name, domain, type ("A" or
"CNAME" — a plain string in the source), value, TTL.  Field names follow the
struct's JSON tags since `Type` is reserved in Lean. -/
structure Record where
  name : String
  domain : String
  type : String
  value : String
  ttl : Nat
  deriving DecidableEq, Repr

/-- The zero value of the `Record` struct (what Go JSON decoding starts from). -/
def zeroRecord : Record := ⟨"", "", "", "", 0⟩

/-- Decimal octet parser used by the IPv4 model: 1–3 digits, no leading zero
(Go ≥1.17 `net.ParseIP` rejects leading zeros), value ≤ 255. -/
def parseOctet (s : String) : Option Nat :=
  if s.data.length = 0 || 3 < s.data.length then none
  else if !(s.data.all Char.isDigit) then none
  else if 1 < s.data.length && s.data.headD '0' = '0' then none
  else
    let v := s.data.foldl (fun a c => a * 10 + (c.toNat - 48)) 0
    if v ≤ 255 then some v else none

/-- Model of `net.ParseIP(v) != nil && ip.To4() != nil` on dotted-quad
literals, the form relevant to A-record validation.  (Textual IPv6 forms that
`To4` also accepts are outside the modelled input set.) -/
def isIPv4 (s : String) : Bool :=
  let parts := splitOnChar '.' s
  parts.length = 4 && parts.all (fun p => (parseOctet p).isSome)

/-- Character class of `isValidDomain` in `pkg/dns`: ASCII letters, digits, hyphen. -/
def isLabelChar (c : Char) : Bool :=
  (('a' ≤ c && c ≤ 'z') || ('A' ≤ c && c ≤ 'Z') || ('0' ≤ c && c ≤ '9') || c = '-')

/-- Per-label check of `isValidDomain`: nonempty, ≤ 63 chars, valid characters,
no leading or trailing hyphen. -/
def isValidLabel (label : String) : Bool :=
  match label.data with
  | [] => false
  | c :: cs =>
      (c :: cs).length ≤ 63 &&
      (c :: cs).all isLabelChar &&
      c ≠ '-' &&
      (c :: cs).getLast (by simp) ≠ '-'

/-- Model of `isValidDomain` (`pkg/dns`): trim one trailing dot, bound total
length by 253, split on dots, check every label. -/
def isValidDomain (domain : String) : Bool :=
  let d := trimSuffix domain "."
  if d.data.length = 0 || 253 < d.data.length then false
  else (splitOnChar '.' d).all isValidLabel

/-- Model of `Record.Validate` (`pkg/dns`): `some msg` is the error return,
`none` is success, with the checks in source order. -/
def Record.Validate (r : Record) : Option String :=
  if r.name = "" then some "record name cannot be empty"
  else if r.domain = "" then some "record domain cannot be empty"
  else if r.type = "" then some "record type cannot be empty"
  else if r.value = "" then some "record value cannot be empty"
  else if r.type = "A" then
    if isIPv4 r.value then none else some "invalid IPv4 address"
  else if r.type = "CNAME" then
    if isValidDomain r.value then none else some "invalid CNAME target"
  else some "unsupported record type"

/-- The in-memory index of `Storage` (`internal/api/storage.go`):
`map[string]map[string]*dns.Record`, domain → name → record, as a two-level
association list. -/
abbrev RecordsMap : Type := List (String × List (String × Record))

/-- Two-level lookup over the index, modelling `s.records[domain][name]`
(the body of `Storage.GetRecord` minus the error wrapping). -/
def lookupRecords (m : RecordsMap) (domain nm : String) : Option Record :=
  (lookupA domain m).bind (fun inner => lookupA nm inner)

/-- One decodable JSON file body, as far as `Storage.load` is concerned.
`syntaxErr` is a body `json.Decoder.Decode` rejects while scanning the value,
before any unmarshalling touches the target map.  `object` is a well-formed
top-level JSON object: each domain key carries either a decodable inner
name→record object (`some inner`) or a JSON value of the wrong type (`none`),
which `encoding/json` records as an `UnmarshalTypeError`, skips, and keeps
going ("completes the unmarshaling as best it can"). -/
inductive FileData where
  | syntaxErr : FileData
  | object : List (String × Option (List (String × Record))) → FileData
  deriving DecidableEq

/-- Outcome of the `os.Open` + `syscall.Flock` + decode sequence attempted by
`Storage.load`, naming which environmental step failed, if any. -/
inductive ReadEvent where
  | fileAbsent : ReadEvent
  | openError : ReadEvent
  | lockError : ReadEvent
  | content : FileData → ReadEvent

/-- Errors `Storage.load` can return; `notExist` is the `os.Open` error for
which `os.IsNotExist` holds. -/
inductive LoadError where
  | notExist : LoadError
  | openErr : LoadError
  | lockErr : LoadError
  | decodeErr : LoadError
  deriving DecidableEq

/-- Decoding a JSON object into a fresh inner `map[string]*dns.Record`:
`encoding/json` zeroes the scratch element for each top-level key, so the
inner map starts empty and later duplicate keys overwrite earlier ones. -/
def decodeInner (entries : List (String × Record)) : List (String × Record) :=
  entries.foldl (fun m e => insertA e.1 e.2 m) []

/-- Decoding a top-level JSON object into the existing `s.records` map.
Per the `encoding/json` contract, a non-nil target map is reused "keeping
existing entries": keys present in the JSON are set (each decoded into a
fresh inner map), keys absent from the JSON are left as they were, and a
type-mismatched value is skipped with the error flag set while decoding
continues. -/
def decodeObject (old : RecordsMap)
    (entries : List (String × Option (List (String × Record)))) : RecordsMap × Bool :=
  entries.foldl
    (fun acc e =>
      match e.2 with
      | some inner => (insertA e.1 (decodeInner inner) acc.1, acc.2)
      | none => (acc.1, true))
    (old, false)

/-- Model of `Storage.load`: open the file, take the shared lock, then
`json.NewDecoder(file).Decode(&s.records)`.  Returns the (possibly updated)
in-memory index and the error returned to the caller. -/
def load (mem : RecordsMap) (ev : ReadEvent) : RecordsMap × Option LoadError :=
  match ev with
  | ReadEvent.fileAbsent => (mem, some LoadError.notExist)
  | ReadEvent.openError => (mem, some LoadError.openErr)
  | ReadEvent.lockError => (mem, some LoadError.lockErr)
  | ReadEvent.content FileData.syntaxErr => (mem, some LoadError.decodeErr)
  | ReadEvent.content (FileData.object es) =>
      let r := decodeObject mem es
      (r.1, if r.2 then some LoadError.decodeErr else none)

/-- Model of `Storage.Reload`: takes the write lock and calls `load`. -/
def Reload (mem : RecordsMap) (ev : ReadEvent) : RecordsMap × Option LoadError :=
  load mem ev

/-- On-disk state relevant to `Storage.save`: the real snapshot path and its
`.tmp` sibling, each either absent or holding some file body. -/
structure DiskState where
  real : Option FileData
  temp : Option FileData
  deriving DecidableEq

/-- Environmental outcome of one `Storage.save` attempt, naming the first
step that fails (or `ok` when none does). -/
inductive SaveEvent where
  | ok : SaveEvent
  | createTempFail : SaveEvent
  | lockExFail : SaveEvent
  | encodeFail : SaveEvent
  | renameFail : SaveEvent
  deriving DecidableEq

/-- JSON encoding of the full in-memory index, as written by `save`. -/
def encodeRecords (m : RecordsMap) : FileData :=
  FileData.object (m.map (fun e => (e.1, some e.2)))

/-- Model of `Storage.save` with its `defer os.Remove(tempFile)` cleanup:
`true` in the second component means the attempt returned an error.
On `createTempFail` the temp file was never created (the remove is deferred
only after a successful `os.OpenFile`), on the later failures the deferred
remove deletes the temp file; only the final `os.Rename` ever changes the
real path. -/
def save (m : RecordsMap) (disk : DiskState) (ev : SaveEvent) : DiskState × Bool :=
  match ev with
  | SaveEvent.createTempFail => (disk, true)
  | SaveEvent.lockExFail => (⟨disk.real, none⟩, true)
  | SaveEvent.encodeFail => (⟨disk.real, none⟩, true)
  | SaveEvent.renameFail => (⟨disk.real, none⟩, true)
  | SaveEvent.ok => (⟨some (encodeRecords m), none⟩, false)

/-- The `Storage` struct: in-memory index plus the backing file state. -/
structure Storage where
  records : RecordsMap
  disk : DiskState
  deriving DecidableEq

/-- Errors surfaced by the store mutation paths. -/
inductive StoreError where
  | invalid : String → StoreError
  | notFound : StoreError
  | persistFail : StoreError
  deriving DecidableEq

/-- Model of `Storage.GetRecord`: `none` is the not-found error return. -/
def GetRecord (s : Storage) (domain nm : String) : Option Record :=
  lookupRecords s.records domain nm

/-- TTL defaulting performed inside `SetRecord` by mutating the record before
storing it (`if record.TTL == 0 { record.TTL = 60 }`). -/
def storedVersion (r : Record) : Record :=
  if r.ttl = 0 then { r with ttl := 60 } else r

/-- Model of `Storage.SetRecord`: validate, default the TTL, insert under
(domain, name) — creating the inner map if needed — then persist via `save`.
Note the in-memory index keeps the new record even if `save` fails. -/
def SetRecord (s : Storage) (r : Record) (ev : SaveEvent) : Storage × Option StoreError :=
  match Record.Validate r with
  | some msg => (s, some (StoreError.invalid msg))
  | none =>
      let r' := storedVersion r
      let inner := (lookupA r'.domain s.records).getD []
      let recs' := insertA r'.domain (insertA r'.name r' inner) s.records
      let d := save recs' s.disk ev
      (⟨recs', d.1⟩, if d.2 then some StoreError.persistFail else none)

/-- Model of `Storage.DeleteRecord`: not-found checks, removal, empty-domain
cleanup, then persist. -/
def DeleteRecord (s : Storage) (domain nm : String) (ev : SaveEvent) :
    Storage × Option StoreError :=
  match lookupA domain s.records with
  | none => (s, some StoreError.notFound)
  | some inner =>
      match lookupA nm inner with
      | none => (s, some StoreError.notFound)
      | some _ =>
          let inner' := eraseA nm inner
          let recs' :=
            if inner'.isEmpty then eraseA domain s.records
            else insertA domain inner' s.records
          let d := save recs' s.disk ev
          (⟨recs', d.1⟩, if d.2 then some StoreError.persistFail else none)

/-- Slice of an HTTP response relevant here: status code and the record
echoed back on success (`internal/api/handlers.go`). -/
structure HttpResponse where
  status : Nat
  record : Option Record
  deriving DecidableEq

/-- Model of `Server.UpdateRecordHandler` (`PUT /api/v1/records/{domain}/{name}`):
method check, path split after trimming the route base, `@` → "" apex
normalization, body decode (`none` models a decode failure), domain/name
override from the URL, then `SetRecord`.  On success the response carries the
record as mutated by `SetRecord` (TTL defaulted through the shared pointer). -/
def UpdateRecordHandler (s : Storage) (method path : String) (body : Option Record)
    (ev : SaveEvent) : Storage × HttpResponse :=
  if method ≠ "PUT" then (s, ⟨405, none⟩)
  else
    let pathParts := splitOnChar '/' (trimLeading path "/api/v1/records/")
    if pathParts.length ≠ 2 then (s, ⟨400, none⟩)
    else
      let domain := pathParts.headD ""
      let nm0 := pathParts.getD 1 ""
      let nm := if nm0 = "@" then "" else nm0
      match body with
      | none => (s, ⟨400, none⟩)
      | some rec0 =>
          let rec1 := { rec0 with domain := domain, name := nm }
          let res := SetRecord s rec1 ev
          match res.2 with
          | some _ => (res.1, ⟨400, none⟩)
          | none => (res.1, ⟨200, some (storedVersion rec1)⟩)

/-- Query types the plugin branches on (`dns.TypeA`, `dns.TypeCNAME`, rest). -/
inductive QType where
  | A : QType
  | CNAME : QType
  | other : QType
  deriving DecidableEq

/-- Observable outcome of `NetBird.ServeDNS`: a synthesized CNAME answer, a
synthesized A answer, or falling through to `plugin.NextOrFailure`. -/
inductive DnsAction where
  | answerCNAME : String → Nat → DnsAction
  | answerA : String → Nat → DnsAction
  | passThrough : DnsAction
  deriving DecidableEq

/-- The `NetBird` plugin state used by the resolution path: configured
domains and the storage's record index. -/
structure NetBird where
  Domains : List String
  storage : RecordsMap

/-- Query-name split shared by `ResolveCNAME` and `lookupCustomRecord`:
trim the trailing dot, split on dots, first label is the name and the joined
rest is the domain; fewer than two labels means no lookup. -/
def parseQuery (queryName : String) : Option (String × String) :=
  let parts := splitOnChar '.' (trimSuffix queryName ".")
  if parts.length < 2 then none
  else some (parts.headD "", joinDots parts.tail)

/-- Model of `NetBird.ResolveCNAME`: look the query up in storage and, when
the stored record is a CNAME, return its value dot-terminated. -/
def ResolveCNAME (nb : NetBird) (queryName : String) : Option String :=
  match parseQuery queryName with
  | none => none
  | some dn =>
      match lookupRecords nb.storage dn.2 dn.1 with
      | none => none
      | some r =>
          if r.type = "CNAME" then
            some (if strEndsWith r.value "." then r.value else r.value ++ ".")
          else none

/-- Model of `NetBird.lookupCustomRecord`: outer `none` is the found=false
return (no record, or a CNAME which this path refuses); on a found A record
the inner option is the `net.ParseIP` result for the stored value. -/
def lookupCustomRecord (nb : NetBird) (queryName : String) : Option (Option String) :=
  match parseQuery queryName with
  | none => none
  | some dn =>
      match lookupRecords nb.storage dn.2 dn.1 with
      | none => none
      | some r =>
          if r.type = "A" then some (if isIPv4 r.value then some r.value else none)
          else if r.type = "CNAME" then none
          else some none

/-- Model of `NetBird.ServeDNS`: suffix-match the query against the
configured domains; for A or CNAME queries try `ResolveCNAME` first and
answer with TTL 60 on a hit; otherwise try the custom A-record path (which
answers only A queries with a parsed IPv4); otherwise pass through. -/
def ServeDNS (nb : NetBird) (queryName : String) (qtype : QType) : DnsAction :=
  let matchesDomain := nb.Domains.any (fun d => strEndsWith queryName (d ++ "."))
  if !matchesDomain then DnsAction.passThrough
  else
    let cnameHit : Option String :=
      if qtype == QType.CNAME || qtype == QType.A then ResolveCNAME nb queryName else none
    match cnameHit with
    | some target => DnsAction.answerCNAME target 60
    | none =>
        match lookupCustomRecord nb queryName with
        | some (some ip) =>
            if qtype == QType.A then DnsAction.answerA ip 60 else DnsAction.passThrough
        | _ => DnsAction.passThrough

/-- A managed process (`internal/process/manager.go`): its name, the running
flag, and its reaction to the cooperative TERM signal — `some d` exits `d`
milliseconds after the signal, `none` ignores it. -/
structure MProcess where
  name : String
  running : Bool
  termExit : Option Nat
  deriving DecidableEq

/-- Whether a process is still alive `t` milliseconds after the TERM signals
were sent at the start of `Stop`. -/
def runningAt (p : MProcess) (t : Nat) : Bool :=
  p.running &&
    (match p.termExit with
     | none => true
     | some d => decide (t < d))

/-- The polling loop of `Manager.Stop` in discrete 500 ms steps: while the
2000 ms deadline has not passed, check whether every process has stopped
(break out recording each one's state), else sleep one poll interval; once
the deadline passes, force-kill whatever is still running.  Time advances
only by the sleeps; the returned clock is the elapsed time at return. -/
def stopLoop (ps : List MProcess) (t : Nat) : Nat × List MProcess :=
  if h : t < 2000 then
    if ps.all (fun p => !runningAt p t) then
      (t, ps.map (fun p => { p with running := runningAt p t }))
    else stopLoop ps (t + 500)
  else
    (t, ps.map (fun p =>
      if runningAt p t then { p with running := false }
      else { p with running := runningAt p t }))
termination_by 2000 - t
decreasing_by omega

/-- Model of `Manager.Stop`: cancel the context (tracked in `SupState` by the
callers that need it), send TERM to all, then run the poll/force-kill loop. -/
def Stop (ps : List MProcess) : Nat × List MProcess :=
  stopLoop ps 0

/-- Supervisor state shared by the monitors and the signal loop: the
cancellation flag of the manager context and the managed process list. -/
structure SupState where
  ctxCancelled : Bool
  procs : List MProcess

/-- Model of `Manager.monitorProcess` observing the exit of the process
named `pname` with the given status: mark it not running, and — when the
exit was failing and no shutdown is in progress (`m.ctx.Err() == nil`) —
cancel the supervisor context. -/
def monitorProcess (st : SupState) (pname : String) (exitStatus : Nat) : SupState :=
  let procs' := st.procs.map (fun p => if p.name = pname then { p with running := false } else p)
  if exitStatus != 0 && !st.ctxCancelled then ⟨true, procs'⟩
  else ⟨st.ctxCancelled, procs'⟩

/-- Result of `Manager.RunWithSignalHandling`: still blocked in the select,
or returned after running `Stop` (carrying `Stop`'s clock and final list). -/
inductive RunResult where
  | blocked : RunResult
  | shutdownDone : Nat → List MProcess → RunResult
  deriving DecidableEq

/-- Model of `Manager.RunWithSignalHandling`: the select unblocks when an OS
signal arrived or the manager context is cancelled; it then runs `Stop` and
returns.  With neither trigger it stays blocked. -/
def RunWithSignalHandling (st : SupState) (signalReceived : Bool) : RunResult :=
  if signalReceived || st.ctxCancelled then
    RunResult.shutdownDone (Stop st.procs).1 (Stop st.procs).2
  else RunResult.blocked

/-- Pointer-level refinement of the record index, for the aliasing behavior
of `GetRecord` vs the deep copies of `ListRecords`: the heap is a list of
`Record` cells addressed by position, and the index stores cell addresses in
place of the Go `*dns.Record` pointers. -/
structure HStorage where
  heap : List Record
  index : List (String × List (String × Nat))

/-- Read a heap cell (pointer dereference). -/
def heapRead (h : List Record) (a : Nat) : Option Record :=
  h[a]?

/-- Overwrite a heap cell (mutation through a pointer, `*p = r`). -/
def heapWrite (h : List Record) (a : Nat) (r : Record) : List Record :=
  h.set a r

/-- Pointer-level `Storage.GetRecord`: returns the pointer stored in the
index itself, not a copy — `return record` on the `*dns.Record` map value. -/
def hGetRecord (s : HStorage) (domain nm : String) : Option Nat :=
  (lookupA domain s.index).bind (fun inner => lookupA nm inner)

/-- Value observed through the pointer `GetRecord` returns. -/
def hDeref (s : HStorage) (domain nm : String) : Option Record :=
  (hGetRecord s domain nm).bind (fun a => heapRead s.heap a)

/-- Mutation of the record object a caller obtained from `GetRecord`. -/
def hMutate (s : HStorage) (a : Nat) (r : Record) : HStorage :=
  ⟨heapWrite s.heap a r, s.index⟩

/-- Inner loop of `Storage.ListRecords` at pointer level: `recordCopy :=
*record` allocates a fresh cell per record and the result map stores the
fresh addresses. -/
def hCopyInner (h : List Record) (inner : List (String × Nat)) :
    List Record × List (String × Nat) :=
  match inner with
  | [] => (h, [])
  | e :: rest =>
      let h' := h ++ [(heapRead h e.2).getD zeroRecord]
      let r := hCopyInner h' rest
      (r.1, (e.1, h.length) :: r.2)

/-- Outer loop of `Storage.ListRecords` at pointer level. -/
def hListGo (h : List Record) (idx : List (String × List (String × Nat))) :
    List Record × List (String × List (String × Nat)) :=
  match idx with
  | [] => (h, [])
  | dm :: rest =>
      let c := hCopyInner h dm.2
      let r := hListGo c.1 rest
      (r.1, (dm.1, c.2) :: r.2)

/-- Pointer-level `Storage.ListRecords`: the extended heap holding the fresh
copies, and the deep-copied result map addressing them. -/
def hListRecords (s : HStorage) : List Record × List (String × List (String × Nat)) :=
  hListGo s.heap s.index

/-- Values of an inner address map as seen through a heap. -/
def derefInner (h : List Record) (inner : List (String × Nat)) : List (String × Record) :=
  inner.map (fun e => (e.1, (heapRead h e.2).getD zeroRecord))

/-- Values of a full index as seen through a heap; applied to the store's own
index this is exactly what `save` serializes (it dereferences every
`*dns.Record` while encoding). -/
def derefIndex (h : List Record) (idx : List (String × List (String × Nat))) : RecordsMap :=
  idx.map (fun dm => (dm.1, derefInner h dm.2))

/-- The record values held by the store, i.e. the persisted snapshot content. -/
def hSnapshot (s : HStorage) : RecordsMap :=
  derefIndex s.heap s.index

/-- Addresses stored in an inner map. -/
def innerAddrs (inner : List (String × Nat)) : List Nat :=
  inner.map (fun e => e.2)

/-- Addresses stored anywhere in an index. -/
def idxAddrs (idx : List (String × List (String × Nat))) : List Nat :=
  (idx.map (fun dm => innerAddrs dm.2)).flatten

/-- All addresses of an inner map point into the heap. -/
abbrev innerValid (h : List Record) (inner : List (String × Nat)) : Prop :=
  ∀ e ∈ inner, e.2 < h.length

/-- All addresses of an index point into the heap (the Go invariant that the
map holds no nil or dangling pointers). -/
abbrev idxValid (h : List Record) (idx : List (String × List (String × Nat))) : Prop :=
  ∀ dm ∈ idx, innerValid h dm.2

/-- Fixture: a stored A record under domain "a", name "x". -/
def exRecA : Record := ⟨"x", "a", "A", "10.0.0.5", 60⟩

/-- Fixture: an A record under domain "b", name "y", as found on disk. -/
def exRecB : Record := ⟨"y", "b", "A", "10.0.0.6", 60⟩

/-- Fixture: an in-memory index holding only ("a", "x"). -/
def exMem : RecordsMap := [("a", [("x", exRecA)])]

/-- Fixture: disk state with a committed snapshot of `exMem` and no temp file. -/
def exDisk : DiskState := ⟨some (encodeRecords exMem), none⟩

/-- Fixture: an empty store over an empty disk. -/
def exStorage : Storage := ⟨[], ⟨none, none⟩⟩

/-- Fixture: a PUT body carrying only type and value (a partial record). -/
def exBody : Record := ⟨"", "", "A", "10.0.0.5", 0⟩

/-- Fixture: an on-disk object with one well-typed domain and one
type-mismatched domain value. -/
def exBadDisk : FileData := FileData.object [("b", some [("y", exRecB)]), ("c", none)]

/-- Fixture: the CNAME record of the resolution-priority property. -/
def exCname : Record := ⟨"api", "example.com", "CNAME", "web.example.com", 60⟩

/-- Fixture: a plugin serving "example.com" with the `exCname` record stored. -/
def exNetBird : NetBird := ⟨["example.com"], [("example.com", [("api", exCname)])]⟩

/-- Fixture: a running managed process that ignores the TERM signal. -/
def exIgnoring : MProcess := ⟨"coredns", true, none⟩

/-- Fixture: a supervisor with one running TERM-ignoring process, not cancelled. -/
def exSup : SupState := ⟨false, [exIgnoring]⟩

/-- Fixture: a pointer-level store with one heap cell and one index entry. -/
def exHStore : HStorage := ⟨[exCname], [("example.com", [("api", 0)])]⟩

theorem lookupA_insertA_self {α : Type} (k : String) (v : α) (l : List (String × α)) :
    lookupA k (insertA k v l) = some v := by
  induction l with
  | nil => simp [insertA, lookupA]
  | cons hd tl ih =>
      obtain ⟨k', v'⟩ := hd
      by_cases h : k' = k
      · simp [insertA, h, lookupA]
      · simp [insertA, h, lookupA, ih]

theorem storedVersion_eq (r : Record) :
    storedVersion r = { r with ttl := if r.ttl = 0 then 60 else r.ttl } := by
  unfold storedVersion
  split <;> rename_i h <;> simp [h]

theorem storedVersion_domain (r : Record) : (storedVersion r).domain = r.domain := by
  unfold storedVersion; split <;> rfl

theorem storedVersion_name (r : Record) : (storedVersion r).name = r.name := by
  unfold storedVersion; split <;> rfl

/-- Claim C1 (code bug): a successful `Reload` does not wholesale replace the
in-memory index.  With the on-disk snapshot the empty object `{}`, reload
reports success, yet the pre-existing entry ("a", "x") — absent from disk —
is still observable via `GetRecord`.  `json.Decode` into the live non-nil
map keeps existing entries instead of clearing them. -/
theorem reload_merge_keeps_stale :
    (Reload exMem (ReadEvent.content (FileData.object []))).2 = none ∧
    GetRecord ⟨(Reload exMem (ReadEvent.content (FileData.object []))).1, ⟨none, none⟩⟩ "a" "x"
      = some exRecA := by
  decide

/-- Claim C2 (code bug): a `PUT /api/v1/records/example.com/@` with a valid
type and value is answered 400, not 200: the handler normalizes "@" to ""
and `Record.Validate` then rejects the empty name, so an apex record can
never be stored. -/
theorem update_handler_apex_rejected :
    UpdateRecordHandler exStorage "PUT" "/api/v1/records/example.com/@" (some exBody)
        SaveEvent.ok = (exStorage, ⟨400, none⟩) ∧
    Record.Validate ⟨"", "example.com", "A", "10.0.0.5", 0⟩
      = some "record name cannot be empty" := by
  decide

/-- Claim C3 (code bug): a reload whose JSON parse fails can still mutate the
previously loaded in-memory index.  A well-formed snapshot with one
well-typed domain and one type-mismatched domain returns a decode error, yet
the well-typed entry ("b", "y") has been merged into memory, where it was
absent before the call. -/
theorem reload_type_error_mutates :
    (Reload exMem (ReadEvent.content exBadDisk)).2 = some LoadError.decodeErr ∧
    GetRecord ⟨(Reload exMem (ReadEvent.content exBadDisk)).1, ⟨none, none⟩⟩ "b" "y"
      = some exRecB ∧
    GetRecord ⟨exMem, ⟨none, none⟩⟩ "b" "y" = none := by
  decide

/-- Claim C4 (confirmed): a `save` that fails at temp-file creation, lock
acquisition, or JSON encoding — any step before the rename — leaves no temp
file behind and leaves the real snapshot file byte-for-byte untouched, and
reports the failure. -/
theorem save_failure_preserves_snapshot (m : RecordsMap) (disk : DiskState) (ev : SaveEvent)
    (h0 : disk.temp = none)
    (hf : ev = SaveEvent.createTempFail ∨ ev = SaveEvent.lockExFail ∨ ev = SaveEvent.encodeFail) :
    (save m disk ev).1.temp = none ∧ (save m disk ev).1.real = disk.real ∧
      (save m disk ev).2 = true := by
  rcases hf with rfl | rfl | rfl <;> simp [save, h0]

/-- Witness for C4 at a concrete store, disk, and failing step. -/
theorem save_failure_preserves_snapshot_witness :
    (exDisk.temp = none ∧
      (SaveEvent.encodeFail = SaveEvent.createTempFail ∨
        SaveEvent.encodeFail = SaveEvent.lockExFail ∨
        SaveEvent.encodeFail = SaveEvent.encodeFail)) ∧
    ((save exMem exDisk SaveEvent.encodeFail).1.temp = none ∧
      (save exMem exDisk SaveEvent.encodeFail).1.real = exDisk.real ∧
      (save exMem exDisk SaveEvent.encodeFail).2 = true) :=
  ⟨⟨rfl, Or.inr (Or.inr rfl)⟩,
    save_failure_preserves_snapshot exMem exDisk SaveEvent.encodeFail rfl
      (Or.inr (Or.inr rfl))⟩

/-- Claim C5 counterexample: with the snapshot file absent, `Reload` does not
report success — it returns the `os.Open` not-exist error to its caller
(only `NewStorage` tolerates that error; the refresh loop logs it). -/
theorem reload_absent_reports_error :
    (Reload exMem ReadEvent.fileAbsent).2 ≠ none := by
  decide

/-- Claim C5 as amended: with the snapshot file absent, `Reload` leaves the
in-memory index unchanged but returns the not-exist read error rather than
success. -/
theorem reload_absent_noop (mem : RecordsMap) :
    Reload mem ReadEvent.fileAbsent = (mem, some LoadError.notExist) := rfl

/-- Claim C9 (confirmed): for a record that passes validation and whose
persistence succeeds, `SetRecord` reports success and a following
`GetRecord` at (domain, name) returns the record, with TTL 60 when the
record's TTL was 0 and the record's own TTL otherwise. -/
theorem set_get_roundtrip (s : Storage) (r : Record) (h : Record.Validate r = none) :
    (SetRecord s r SaveEvent.ok).2 = none ∧
    GetRecord (SetRecord s r SaveEvent.ok).1 r.domain r.name =
      some { r with ttl := if r.ttl = 0 then 60 else r.ttl } := by
  unfold SetRecord
  rw [h]
  refine ⟨by simp [save], ?_⟩
  simp [GetRecord, lookupRecords, storedVersion_domain, storedVersion_name,
    lookupA_insertA_self, storedVersion_eq]

/-- Witness for C9 at a concrete valid record with TTL 0. -/
theorem set_get_roundtrip_witness :
    (Record.Validate ⟨"api", "example.com", "A", "10.0.0.5", 0⟩ = none) ∧
    ((SetRecord exStorage ⟨"api", "example.com", "A", "10.0.0.5", 0⟩ SaveEvent.ok).2 = none ∧
      GetRecord (SetRecord exStorage ⟨"api", "example.com", "A", "10.0.0.5", 0⟩ SaveEvent.ok).1
          "example.com" "api" =
        some { name := "api", domain := "example.com", type := "A", value := "10.0.0.5",
               ttl := if 0 = 0 then 60 else 0 }) :=
  ⟨by decide, set_get_roundtrip exStorage ⟨"api", "example.com", "A", "10.0.0.5", 0⟩ (by decide)⟩

theorem stopLoop_step (ps : List MProcess) (t : Nat) (ht : t < 2000)
    (hf : ps.all (fun p => !runningAt p t) = false) :
    stopLoop ps t = stopLoop ps (t + 500) := by
  rw [stopLoop]
  simp [ht, hf]

theorem stopLoop_deadline (ps : List MProcess) :
    stopLoop ps 2000 = (2000, ps.map (fun p =>
      if runningAt p 2000 then { p with running := false }
      else { p with running := runningAt p 2000 })) := by
  rw [stopLoop]
  simp

theorem stop_of_never_graceful (ps : List MProcess)
    (hall : ∀ t, ps.all (fun p => !runningAt p t) = false) :
    Stop ps = (2000, ps.map (fun p =>
      if runningAt p 2000 then { p with running := false }
      else { p with running := runningAt p 2000 })) := by
  unfold Stop
  rw [stopLoop_step ps 0 (by norm_num) (hall 0),
    stopLoop_step ps 500 (by norm_num) (hall 500),
    stopLoop_step ps 1000 (by norm_num) (hall 1000),
    stopLoop_step ps 1500 (by norm_num) (hall 1500)]
  exact stopLoop_deadline ps

/-- Claim C6 (confirmed): with at least one running process that ignores the
cooperative TERM signal, `Stop` returns with its clock within
deadline + polling interval (2000 ms + 500 ms) and with no managed process
left in the running state. -/
theorem stop_deadline_bound (ps : List MProcess)
    (h : ps.any (fun p => p.running && p.termExit.isNone) = true) :
    (Stop ps).1 ≤ 2000 + 500 ∧ (Stop ps).2.all (fun p => !p.running) = true := by
  have hall : ∀ t, ps.all (fun p => !runningAt p t) = false := by
    intro t
    rcases List.any_eq_true.mp h with ⟨p, hp, hpb⟩
    simp only [Bool.and_eq_true, Option.isNone_iff_eq_none] at hpb
    obtain ⟨h1, hnone⟩ := hpb
    refine List.all_eq_false.mpr ⟨p, hp, ?_⟩
    simp [runningAt, h1, hnone]
  rw [stop_of_never_graceful ps hall]
  refine ⟨by norm_num, ?_⟩
  rw [List.all_map, List.all_eq_true]
  intro p hp
  by_cases hr : runningAt p 2000 = true <;> simp [Function.comp, hr]

/-- Witness for C6: a single running TERM-ignoring process. -/
theorem stop_deadline_bound_witness :
    ([exIgnoring].any (fun p => p.running && p.termExit.isNone) = true) ∧
    ((Stop [exIgnoring]).1 ≤ 2000 + 500 ∧
      (Stop [exIgnoring]).2.all (fun p => !p.running) = true) :=
  ⟨by decide, stop_deadline_bound [exIgnoring] (by decide)⟩

/-- Claim C7 (confirmed): when a managed process exits with a nonzero status
while no shutdown is in progress, the monitor marks it not running and
cancels the supervisor context; `RunWithSignalHandling` then unblocks with
no OS signal delivered, runs the full `Stop` sequence, and returns. -/
theorem fail_fast_propagation (st : SupState) (pname : String) (exitStatus : Nat)
    (hs : exitStatus ≠ 0) (hc : st.ctxCancelled = false) :
    (monitorProcess st pname exitStatus).ctxCancelled = true ∧
    (monitorProcess st pname exitStatus).procs.all
        (fun p => !(p.name == pname) || !p.running) = true ∧
    RunWithSignalHandling (monitorProcess st pname exitStatus) false =
      RunResult.shutdownDone (Stop (monitorProcess st pname exitStatus).procs).1
        (Stop (monitorProcess st pname exitStatus).procs).2 ∧
    RunWithSignalHandling (monitorProcess st pname exitStatus) false ≠ RunResult.blocked := by
  have hcond : (exitStatus != 0 && !st.ctxCancelled) = true := by
    simp [hs, hc]
  have hm : monitorProcess st pname exitStatus =
      ⟨true, st.procs.map (fun p => if p.name = pname then { p with running := false } else p)⟩ := by
    unfold monitorProcess
    rw [hcond]
    simp
  rw [hm]
  refine ⟨rfl, ?_, ?_, ?_⟩
  · rw [List.all_map, List.all_eq_true]
    intro p hp
    by_cases h : p.name = pname <;> simp [Function.comp, h]
  · simp [RunWithSignalHandling]
  · simp [RunWithSignalHandling]

/-- Witness for C7: one running process exits with status 1 while the
supervisor context is not cancelled. -/
theorem fail_fast_propagation_witness :
    ((1 : Nat) ≠ 0 ∧ exSup.ctxCancelled = false) ∧
    ((monitorProcess exSup "coredns" 1).ctxCancelled = true ∧
      (monitorProcess exSup "coredns" 1).procs.all
          (fun p => !(p.name == "coredns") || !p.running) = true ∧
      RunWithSignalHandling (monitorProcess exSup "coredns" 1) false =
        RunResult.shutdownDone (Stop (monitorProcess exSup "coredns" 1).procs).1
          (Stop (monitorProcess exSup "coredns" 1).procs).2 ∧
      RunWithSignalHandling (monitorProcess exSup "coredns" 1) false ≠ RunResult.blocked) :=
  ⟨⟨by decide, rfl⟩, fail_fast_propagation exSup "coredns" 1 (by decide) rfl⟩

/-- Claim C8 (confirmed): an A query whose name suffix-matches a configured
domain and whose (first label, remaining labels) pair resolves in storage to
a CNAME record is answered with a CNAME whose target is the stored value
dot-terminated — not passed through and not answered as A. -/
theorem serve_dns_cname_answer (nb : NetBird) (q nm domain : String) (r : Record)
    (hm : nb.Domains.any (fun d => strEndsWith q (d ++ ".")) = true)
    (hp : parseQuery q = some (nm, domain))
    (hr : lookupRecords nb.storage domain nm = some r)
    (ht : r.type = "CNAME") :
    ServeDNS nb q QType.A =
      DnsAction.answerCNAME (if strEndsWith r.value "." then r.value else r.value ++ ".") 60 := by
  have hcn : ResolveCNAME nb q =
      some (if strEndsWith r.value "." then r.value else r.value ++ ".") := by
    unfold ResolveCNAME
    rw [hp]
    simp [hr, ht]
  unfold ServeDNS
  simp [hm, hcn]

/-- Witness for C8: the record "api" of type CNAME targeting
"web.example.com" under "example.com", queried as "api.example.com." type A. -/
theorem serve_dns_cname_answer_witness :
    (exNetBird.Domains.any (fun d => strEndsWith "api.example.com." (d ++ ".")) = true ∧
      parseQuery "api.example.com." = some ("api", "example.com") ∧
      lookupRecords exNetBird.storage "example.com" "api" = some exCname ∧
      exCname.type = "CNAME") ∧
    ServeDNS exNetBird "api.example.com." QType.A =
      DnsAction.answerCNAME
        (if strEndsWith exCname.value "." then exCname.value else exCname.value ++ ".") 60 :=
  ⟨⟨by decide, by decide, by decide, rfl⟩,
    serve_dns_cname_answer exNetBird "api.example.com." "api" "example.com" exCname
      (by decide) (by decide) (by decide) rfl⟩

theorem lookupA_mem {α : Type} (k : String) (v : α) (l : List (String × α))
    (h : lookupA k l = some v) : (k, v) ∈ l := by
  induction l with
  | nil => simp [lookupA] at h
  | cons hd tl ih =>
      obtain ⟨k', v'⟩ := hd
      by_cases hk : k' = k
      · subst hk
        simp [lookupA] at h
        subst h
        exact List.mem_cons_self _ _
      · simp [lookupA, hk] at h
        exact List.mem_cons_of_mem _ (ih h)

theorem lookupA_mapSnd {α β : Type} (k : String) (f : α → β) (l : List (String × α)) :
    lookupA k (l.map (fun e => (e.1, f e.2))) = (lookupA k l).map f := by
  induction l with
  | nil => simp [lookupA]
  | cons hd tl ih =>
      obtain ⟨k', v'⟩ := hd
      by_cases h : k' = k <;> simp [lookupA, h, ih]

theorem hCopyInner_fst (h : List Record) (inner : List (String × Nat)) :
    ∃ ext, (hCopyInner h inner).1 = h ++ ext := by
  induction inner generalizing h with
  | nil => exact ⟨[], by simp [hCopyInner]⟩
  | cons e rest ih =>
      obtain ⟨ext, he⟩ := ih (h ++ [(heapRead h e.2).getD zeroRecord])
      refine ⟨(heapRead h e.2).getD zeroRecord :: ext, ?_⟩
      simp only [hCopyInner, he, List.append_assoc, List.singleton_append]

theorem hCopyInner_le_length (h : List Record) (inner : List (String × Nat)) :
    h.length ≤ (hCopyInner h inner).1.length := by
  obtain ⟨ext, he⟩ := hCopyInner_fst h inner
  simp [he]

theorem hCopyInner_addrs (h : List Record) (inner : List (String × Nat)) :
    ∀ e ∈ (hCopyInner h inner).2, h.length ≤ e.2 ∧ e.2 < (hCopyInner h inner).1.length := by
  induction inner generalizing h with
  | nil => simp [hCopyInner]
  | cons e rest ih =>
      intro x hx
      simp only [hCopyInner, List.mem_cons] at hx ⊢
      rcases hx with rfl | hx
      · refine ⟨Nat.le_refl _, ?_⟩
        have h1 := hCopyInner_le_length (h ++ [(heapRead h e.2).getD zeroRecord]) rest
        simp at h1
        omega
      · have h2 := ih (h ++ [(heapRead h e.2).getD zeroRecord]) x hx
        simp at h2
        omega

theorem derefInner_append (h ext : List Record) (inner : List (String × Nat))
    (hv : innerValid h inner) :
    derefInner (h ++ ext) inner = derefInner h inner := by
  unfold derefInner
  refine List.map_eq_map_iff.mpr ?_
  intro e he
  have hlt : e.2 < h.length := hv e he
  simp [heapRead, List.getElem?_append_left hlt]

theorem derefIndex_append (h ext : List Record) (idx : List (String × List (String × Nat)))
    (hv : idxValid h idx) :
    derefIndex (h ++ ext) idx = derefIndex h idx := by
  unfold derefIndex
  refine List.map_eq_map_iff.mpr ?_
  intro dm hdm
  rw [derefInner_append h ext dm.2 (hv dm hdm)]

theorem hCopyInner_deref (h : List Record) (inner : List (String × Nat))
    (hv : innerValid h inner) :
    derefInner (hCopyInner h inner).1 (hCopyInner h inner).2 = derefInner h inner := by
  induction inner generalizing h with
  | nil => simp [hCopyInner, derefInner]
  | cons e rest ih =>
      have hv1 : e.2 < h.length := hv e (List.mem_cons_self _ _)
      have hvr : innerValid (h ++ [(heapRead h e.2).getD zeroRecord]) rest := by
        intro x hx
        have := hv x (List.mem_cons_of_mem _ hx)
        simp
        omega
      obtain ⟨ext, he⟩ := hCopyInner_fst (h ++ [(heapRead h e.2).getD zeroRecord]) rest
      simp only [hCopyInner, derefInner, List.map_cons]
      congr 1
      · have hread : heapRead (hCopyInner (h ++ [(heapRead h e.2).getD zeroRecord]) rest).1
            h.length = some ((heapRead h e.2).getD zeroRecord) := by
          rw [he]
          unfold heapRead
          rw [List.append_assoc, List.singleton_append,
            List.getElem?_append_right (Nat.le_refl _)]
          simp
        simp [hread]
      · have htail := ih (h ++ [(heapRead h e.2).getD zeroRecord]) hvr
        simp only [derefInner] at htail
        rw [htail]
        have hstable := derefInner_append h [(heapRead h e.2).getD zeroRecord] rest
          (fun x hx => hv x (List.mem_cons_of_mem _ hx))
        simpa [derefInner] using hstable

theorem hListGo_fst (h : List Record) (idx : List (String × List (String × Nat))) :
    ∃ ext, (hListGo h idx).1 = h ++ ext := by
  induction idx generalizing h with
  | nil => exact ⟨[], by simp [hListGo]⟩
  | cons dm rest ih =>
      obtain ⟨ext1, he1⟩ := hCopyInner_fst h dm.2
      obtain ⟨ext2, he2⟩ := ih (hCopyInner h dm.2).1
      refine ⟨ext1 ++ ext2, ?_⟩
      simp only [hListGo]
      rw [he2, he1, List.append_assoc]

theorem hListGo_le_length (h : List Record) (idx : List (String × List (String × Nat))) :
    h.length ≤ (hListGo h idx).1.length := by
  obtain ⟨ext, he⟩ := hListGo_fst h idx
  simp [he]

theorem hListGo_addrs (h : List Record) (idx : List (String × List (String × Nat))) :
    ∀ b ∈ idxAddrs (hListGo h idx).2, h.length ≤ b := by
  induction idx generalizing h with
  | nil => simp [hListGo, idxAddrs]
  | cons dm rest ih =>
      intro b hb
      simp only [hListGo, idxAddrs, List.map_cons, List.flatten_cons, List.mem_append] at hb
      rcases hb with hb | hb
      · simp only [innerAddrs, List.mem_map] at hb
        obtain ⟨e, he, rfl⟩ := hb
        exact (hCopyInner_addrs h dm.2 e he).1
      · have h1 := ih (hCopyInner h dm.2).1 b (by simpa [idxAddrs] using hb)
        exact Nat.le_trans (hCopyInner_le_length h dm.2) h1

theorem hListGo_deref (h : List Record) (idx : List (String × List (String × Nat)))
    (hv : idxValid h idx) :
    derefIndex (hListGo h idx).1 (hListGo h idx).2 = derefIndex h idx := by
  induction idx generalizing h with
  | nil => simp [hListGo, derefIndex]
  | cons dm rest ih =>
      have hvd : innerValid h dm.2 := hv dm (List.mem_cons_self _ _)
      have hvr : idxValid (hCopyInner h dm.2).1 rest := by
        intro x hx e he
        have := hv x (List.mem_cons_of_mem _ hx) e he
        exact Nat.lt_of_lt_of_le this (hCopyInner_le_length h dm.2)
      obtain ⟨ext1, he1⟩ := hCopyInner_fst h dm.2
      obtain ⟨ext2, he2⟩ := hListGo_fst (hCopyInner h dm.2).1 rest
      simp only [hListGo, derefIndex, List.map_cons]
      congr 1
      · have hcv : innerValid (hCopyInner h dm.2).1 (hCopyInner h dm.2).2 :=
          fun e he => (hCopyInner_addrs h dm.2 e he).2
        rw [he2, derefInner_append (hCopyInner h dm.2).1 ext2 (hCopyInner h dm.2).2 hcv]
        rw [hCopyInner_deref h dm.2 hvd]
      · have htail := ih (hCopyInner h dm.2).1 hvr
        simp only [derefIndex] at htail
        rw [htail]
        have hstable := derefIndex_append h ext1 rest
          (fun x hx => hv x (List.mem_cons_of_mem _ hx))
        rw [← he1] at hstable
        simpa [derefIndex] using hstable

theorem lookupRecords_derefIndex (h : List Record)
    (idx : List (String × List (String × Nat))) (domain nm : String)
    (inner : List (String × Nat)) (a : Nat)
    (hd : lookupA domain idx = some inner) (hn : lookupA nm inner = some a) :
    lookupRecords (derefIndex h idx) domain nm = some ((heapRead h a).getD zeroRecord) := by
  unfold lookupRecords derefIndex
  rw [lookupA_mapSnd domain (derefInner h) idx, hd]
  simp only [Option.map_some', Option.some_bind]
  unfold derefInner
  rw [lookupA_mapSnd nm (fun i => (heapRead h i).getD zeroRecord) inner, hn]
  rfl

/-- Claim C10 (confirmed): `GetRecord` returns the pointer stored in the
index itself, so writing through it is visible to a subsequent `GetRecord`,
to the snapshot `save` would serialize, and to the (snapshot-equal) values
`ListRecords` copies out; whereas the cells `ListRecords` hands out are
fresh, so writing through any of them leaves the store's own view of
(domain, name) unchanged. -/
theorem get_aliases_and_copies (s : HStorage) (domain nm : String)
    (inner : List (String × Nat)) (a b : Nat) (r' : Record)
    (hv : idxValid s.heap s.index)
    (hd : lookupA domain s.index = some inner)
    (hn : lookupA nm inner = some a)
    (hb : b ∈ idxAddrs (hListRecords s).2) :
    hDeref (hMutate s a r') domain nm = some r' ∧
    lookupRecords (hSnapshot (hMutate s a r')) domain nm = some r' ∧
    derefIndex (hListRecords (hMutate s a r')).1 (hListRecords (hMutate s a r')).2
      = hSnapshot (hMutate s a r') ∧
    hDeref ⟨heapWrite (hListRecords s).1 b r', s.index⟩ domain nm
      = hDeref s domain nm := by
  have ha : a < s.heap.length := hv (domain, inner) (lookupA_mem _ _ _ hd) (nm, a)
    (lookupA_mem _ _ _ hn)
  have hble : s.heap.length ≤ b := hListGo_addrs s.heap s.index b hb
  have hne : b ≠ a := by omega
  refine ⟨?_, ?_, ?_, ?_⟩
  · simp [hDeref, hGetRecord, hMutate, hd, hn, heapRead, heapWrite,
      List.getElem?_set_self ha]
  · show lookupRecords (derefIndex (heapWrite s.heap a r') s.index) domain nm = some r'
    rw [lookupRecords_derefIndex (heapWrite s.heap a r') s.index domain nm inner a hd hn]
    simp [heapRead, heapWrite, List.getElem?_set_self ha]
  · have hv' : idxValid (hMutate s a r').heap (hMutate s a r').index := by
      intro dm hdm e he
      have := hv dm hdm e he
      simpa [hMutate, heapWrite] using this
    exact hListGo_deref (hMutate s a r').heap (hMutate s a r').index hv'
  · obtain ⟨ext, he⟩ := hListGo_fst s.heap s.index
    have hg1 : hGetRecord ⟨heapWrite (hListRecords s).1 b r', s.index⟩ domain nm = some a := by
      simp [hGetRecord, hd, hn]
    have hg2 : hGetRecord s domain nm = some a := by
      simp [hGetRecord, hd, hn]
    simp only [hDeref, hg1, hg2, Option.some_bind]
    show heapRead (heapWrite (hListRecords s).1 b r') a = heapRead s.heap a
    unfold heapRead heapWrite hListRecords
    rw [List.getElem?_set_ne hne, he, List.getElem?_append_left ha]

/-- Witness for C10 at a one-record store: the cell behind ("example.com",
"api") is address 0, and the single `ListRecords` copy lives at address 1. -/
theorem get_aliases_and_copies_witness :
    (idxValid exHStore.heap exHStore.index ∧
      lookupA "example.com" exHStore.index = some [("api", 0)] ∧
      lookupA "api" [("api", 0)] = some 0 ∧
      1 ∈ idxAddrs (hListRecords exHStore).2) ∧
    (hDeref (hMutate exHStore 0 exRecA) "example.com" "api" = some exRecA ∧
      lookupRecords (hSnapshot (hMutate exHStore 0 exRecA)) "example.com" "api" = some exRecA ∧
      derefIndex (hListRecords (hMutate exHStore 0 exRecA)).1
          (hListRecords (hMutate exHStore 0 exRecA)).2
        = hSnapshot (hMutate exHStore 0 exRecA) ∧
      hDeref ⟨heapWrite (hListRecords exHStore).1 1 exRecA, exHStore.index⟩ "example.com" "api"
        = hDeref exHStore "example.com" "api") :=
  ⟨⟨by decide, by decide, by decide, by decide⟩,
    get_aliases_and_copies exHStore "example.com" "api" [("api", 0)] 0 1 exRecA
      (by decide) (by decide) (by decide) (by decide)⟩

end NBCD
